import Mathlib

/-!
Verification of the event-detection / clip-export / batch-merge pipeline.

The repository consists of several near-duplicate Python scripts.  The
definitions below are shallow embeddings of the functions relevant to the
checked claims:

* `KillExtractor.detect` embeds the keyword-scan loop of
  `find_and_extract` (src/4k_kill_extractor_script/main.py, lines 113-137;
  identical logic in src/yt_4k_to_shorts_pipeline/yt_4k_to_shorts_pipeline.py,
  lines 127-144).  Timestamps are rationals (Python floats), text is a
  string; the scan state is the pair `(found_times, last_found)`.
* `KillExtractor.split_video_into_parts` embeds the segmenter
  (main.py lines 57-74): it receives the probed duration as an `Option`
  (ffprobe failure gives `None` in the source) and returns the list of
  `(start, length)` windows the parts are cut at.
* `KillExtractor.exportWindows` embeds the export loop
  (main.py lines 147-158): `start = max(0, t - PRE_SEC)`,
  `clip_len = PRE_SEC + POST_SEC`.
* `ClipMerger.batches` embeds the batching loop of `main` in
  src/clip_merger_script/merge_clips.py (lines 40-55) and
  `ClipMerger.merge_clips` its `merge_clips` (lines 20-35), abstracted to
  the ffmpeg action it requests.
* `YtPipeline.globalGroups` / `YtPipeline.merge_clips_together` embed
  `merge_all_globally` (lines 164-178) and `merge_clips_together`
  (lines 80-106) of src/yt_4k_to_shorts_pipeline/yt_4k_to_shorts_pipeline.py.
* `YtPipeline.pick_music` embeds the pop-based music pool of the same file
  (lines 200-205); `ShortsReels.pick_random_music` embeds the
  `random.choice` based picker of
  src/shorts_reels_pipeline/shorts_reels_pipeline.py (lines 203-209), with
  the random index made an explicit parameter.
-/

/-- Lower-cased character list of a string: embeds Python `s.lower()`
as used by the detector (ASCII keywords/feed text). -/
def lcList (s : String) : List Char := s.toList.map Char.toLower

/-- `leadsWith pat l` is true when `pat` is an initial run of `l`. -/
def leadsWith : List Char → List Char → Bool
  | [], _ => true
  | _ :: _, [] => false
  | a :: as, b :: bs => a == b && leadsWith as bs

/-- `hasSub pat l` is true when `pat` occurs contiguously inside `l`:
embeds Python `pat in l` on strings. -/
def hasSub (pat : List Char) : List Char → Bool
  | [] => leadsWith pat []
  | b :: bs => leadsWith pat (b :: bs) || hasSub pat bs

/-- Case-insensitive containment, embedding `kw.lower() in text.lower()`
(main.py line 132). -/
def containsCI (text kw : String) : Bool := hasSub (lcList kw) (lcList text)

namespace KillExtractor

/-- One keyword check of the detector's inner loop (main.py lines 131-135):
if the keyword occurs in the sample's text and `sec - last_found > COOLDOWN`,
append `sec` to `found_times` and set `last_found := sec`. The state is
`(found_times, last_found)`. -/
def kwStep (C t : ℚ) (text : String) (st : List ℚ × ℚ) (kw : String) :
    List ℚ × ℚ :=
  if containsCI text kw = true ∧ C < t - st.2 then (st.1 ++ [t], t) else st

/-- One sample of the detector's outer loop (main.py lines 130-136): the
`if text:` gate skips samples with empty recognized text, otherwise every
configured keyword is tried in list order. -/
def sampleStep (kws : List String) (C : ℚ) (st : List ℚ × ℚ) (s : ℚ × String) :
    List ℚ × ℚ :=
  if s.2 = "" then st else kws.foldl (kwStep C s.1 s.2) st

/-- Initial `last_found = -1e9` (main.py line 115). -/
def initLast : ℚ := -(10 ^ 9)

/-- The Event Detector: fold the scan over the sampled timeline and return
`found_times` (main.py lines 114-137). -/
def detect (samples : List (ℚ × String)) (kws : List String) (C : ℚ) :
    List ℚ :=
  (samples.foldl (sampleStep kws C) ([], initLast)).1

/-- `kwStep` either leaves the state unchanged or, when the cooldown guard
`C < t - last_found` holds, appends `t` and updates `last_found` to `t`. -/
lemma kwStep_cases (C t : ℚ) (text kw : String) (st : List ℚ × ℚ) :
    kwStep C t text st kw = st ∨
      (C < t - st.2 ∧ kwStep C t text st kw = (st.1 ++ [t], t)) := by
  unfold kwStep
  split
  · next h => exact .inr ⟨h.2, rfl⟩
  · exact .inl rfl

/-- Scan-state invariant: the recorded times form a strict-cooldown chain and
`last_found` is the last recorded time (when any time was recorded). -/
def DetInv (C : ℚ) (st : List ℚ × ℚ) : Prop :=
  List.Chain' (fun a b => C < b - a) st.1 ∧
    (st.1 = [] ∨ st.1.getLast? = some st.2)

lemma detInv_kwStep (C t : ℚ) (text kw : String) (st : List ℚ × ℚ)
    (h : DetInv C st) : DetInv C (kwStep C t text st kw) := by
  rcases kwStep_cases C t text kw st with heq | ⟨hlt, heq⟩
  · rw [heq]; exact h
  · rw [heq]
    refine ⟨?_, .inr ?_⟩
    · rw [List.chain'_append]
      refine ⟨h.1, List.chain'_singleton t, ?_⟩
      intro x hx y hy
      rcases h.2 with h2 | h2
      · rw [h2] at hx
        simp at hx
      · rw [h2] at hx
        simp at hx hy
        rw [← hx, ← hy]
        exact hlt
    · simp

lemma detInv_kwFold (C t : ℚ) (text : String) (kws : List String) :
    ∀ st : List ℚ × ℚ, DetInv C st →
      DetInv C (kws.foldl (kwStep C t text) st) := by
  induction kws with
  | nil => intro st h; exact h
  | cons kw kws ih =>
    intro st h
    rw [List.foldl_cons]
    exact ih _ (detInv_kwStep C t text kw st h)

lemma detInv_sampleStep (C : ℚ) (kws : List String) (s : ℚ × String)
    (st : List ℚ × ℚ) (h : DetInv C st) : DetInv C (sampleStep kws C st s) := by
  unfold sampleStep
  split
  · exact h
  · exact detInv_kwFold C s.1 s.2 kws st h

lemma detInv_fold (C : ℚ) (kws : List String) (samples : List (ℚ × String)) :
    ∀ st : List ℚ × ℚ, DetInv C st →
      DetInv C (samples.foldl (sampleStep kws C) st) := by
  induction samples with
  | nil => intro st h; exact h
  | cons s samples ih =>
    intro st h
    rw [List.foldl_cons]
    exact ih _ (detInv_sampleStep C kws s st h)

/-- Core detector invariant: the emitted times always form a chain whose
consecutive gaps strictly exceed the cooldown. -/
lemma detect_chain (samples : List (ℚ × String)) (kws : List String) (C : ℚ) :
    List.Chain' (fun a b => C < b - a) (detect samples kws C) :=
  (detInv_fold C kws samples ([], initLast) ⟨List.chain'_nil, .inl rfl⟩).1

/-- Times recorded by the keyword fold are either old ones or the sample time. -/
lemma mem_kwFold (C t : ℚ) (text : String) (kws : List String) :
    ∀ (st : List ℚ × ℚ) (x : ℚ),
      x ∈ (kws.foldl (kwStep C t text) st).1 → x ∈ st.1 ∨ x = t := by
  induction kws with
  | nil => intro st x hx; exact .inl hx
  | cons kw kws ih =>
    intro st x hx
    rw [List.foldl_cons] at hx
    rcases ih _ x hx with h | h
    · rcases kwStep_cases C t text kw st with heq | ⟨_, heq⟩ <;> rw [heq] at h
      · exact .inl h
      · rcases List.mem_append.mp h with h | h
        · exact .inl h
        · simp at h
          exact .inr h
    · exact .inr h

lemma mem_sampleFold (C : ℚ) (kws : List String) (samples : List (ℚ × String)) :
    ∀ (st : List ℚ × ℚ) (x : ℚ),
      x ∈ (samples.foldl (sampleStep kws C) st).1 →
        x ∈ st.1 ∨ ∃ s ∈ samples, x = s.1 := by
  induction samples with
  | nil => intro st x hx; exact .inl hx
  | cons s samples ih =>
    intro st x hx
    rw [List.foldl_cons] at hx
    rcases ih _ x hx with h | ⟨s', hs', hx'⟩
    · unfold sampleStep at h
      split at h
      · exact .inl h
      · rcases mem_kwFold C s.1 s.2 kws st x h with h | h
        · exact .inl h
        · exact .inr ⟨s, List.mem_cons_self s samples, h⟩
    · exact .inr ⟨s', List.mem_cons_of_mem s hs', hx'⟩

/-- Every emitted timestamp is the timestamp of some timeline sample. -/
lemma mem_detect (samples : List (ℚ × String)) (kws : List String) (C : ℚ)
    (x : ℚ) (hx : x ∈ detect samples kws C) : ∃ s ∈ samples, x = s.1 := by
  rcases mem_sampleFold C kws samples ([], initLast) x hx with h | h
  · simp at h
  · exact h

lemma kwStep_nomatch (C t : ℚ) (text kw : String) (st : List ℚ × ℚ)
    (h : containsCI text kw = false) : kwStep C t text st kw = st := by
  simp [kwStep, h]

lemma kwFold_nomatch (C t : ℚ) (text : String) (kws : List String)
    (h : ∀ kw ∈ kws, containsCI text kw = false) :
    ∀ st : List ℚ × ℚ, kws.foldl (kwStep C t text) st = st := by
  induction kws with
  | nil => intro st; rfl
  | cons kw kws ih =>
    intro st
    rw [List.foldl_cons, kwStep_nomatch C t text kw st (h kw (by simp))]
    exact ih (fun kw' hkw' => h kw' (List.mem_cons_of_mem kw hkw')) st

lemma sampleStep_nomatch (C : ℚ) (kws : List String) (s : ℚ × String)
    (st : List ℚ × ℚ) (h : ∀ kw ∈ kws, containsCI s.2 kw = false) :
    sampleStep kws C st s = st := by
  unfold sampleStep
  split
  · rfl
  · exact kwFold_nomatch C s.1 s.2 kws h st

/-- Samples whose recognized text is empty leave the scan state unchanged:
the `if text:` gate of main.py line 130. -/
lemma sampleStep_empty (C : ℚ) (kws : List String) (s : ℚ × String)
    (st : List ℚ × ℚ) (h : s.2 = "") : sampleStep kws C st s = st := by
  simp [sampleStep, h]

lemma fold_filter_empty (C : ℚ) (kws : List String)
    (samples : List (ℚ × String)) :
    ∀ st : List ℚ × ℚ,
      samples.foldl (sampleStep kws C) st =
        (samples.filter fun s => !(s.2 == "")).foldl (sampleStep kws C) st := by
  induction samples with
  | nil => intro st; rfl
  | cons s samples ih =>
    intro st
    by_cases hs : s.2 = ""
    · rw [List.foldl_cons, sampleStep_empty C kws s st hs,
        List.filter_cons_of_neg (by simp [hs])]
      exact ih st
    · rw [List.foldl_cons, List.filter_cons_of_pos (by simp [hs]),
        List.foldl_cons]
      exact ih (sampleStep kws C st s)

/-- Number of iterations of the scan loop `while sec < duration` with
`sec = 0, interval, 2*interval, ...` (main.py lines 116-137): the iterations
are exactly the `k` with `k * interval < duration`. -/
def gridCount (duration interval : ℚ) : ℕ := ⌈duration / interval⌉₊

/-- The sampled timeline a segment produces: at each grid point the frame is
decoded and recognized (`frame` returns `none` on decode failure, which the
loop skips via `continue`, main.py lines 121-124). -/
def scanTimeline (duration interval : ℚ) (frame : ℚ → Option String) :
    List (ℚ × String) :=
  (List.range (gridCount duration interval)).filterMap
    (fun k : ℕ => (frame ((k : ℚ) * interval)).map
      (fun text => ((k : ℚ) * interval, text)))

/-- The detection phase of `find_and_extract` (main.py lines 104-137):
if the very first `cap.read()` fails (`firstOk = false`) the function warns
and returns `[]` at once (lines 104-107); otherwise it scans the timeline. -/
def find_and_extract (firstOk : Bool) (duration interval : ℚ)
    (frame : ℚ → Option String) (kws : List String) (C : ℚ) : List ℚ :=
  if firstOk then detect (scanTimeline duration interval frame) kws C else []

/-- The per-part loop of `main` (main.py lines 215-220): each part is scanned
in order and its event list collected; a part is described by its first-frame
decode status, its duration and its frame oracle. -/
def scanParts (interval : ℚ) (kws : List String) (C : ℚ) :
    List (Bool × ℚ × (ℚ → Option String)) → List (List ℚ)
  | [] => []
  | p :: ps =>
      find_and_extract p.1 p.2.1 interval p.2.2 kws C ::
        scanParts interval kws C ps

/-- The export loop of `find_and_extract` (main.py lines 147-158): every
found time `ft` is turned into the extraction request
`(start, length) = (max 0 (ft - pre), pre + post)`. -/
def exportWindows (found_times : List ℚ) (pre post : ℚ) : List (ℚ × ℚ) :=
  found_times.map (fun ft => (max 0 (ft - pre), pre + post))

/-- `split_video_into_parts` (main.py lines 57-74): the probed duration is
`none` when ffprobe failed (`get_video_duration` returns `None`); the Python
guard `if not duration: return []` also catches a zero duration.  On success
part `i` is cut at `(i * (duration / num_parts), duration / num_parts)`. -/
def split_video_into_parts (duration : Option ℚ) (num_parts : ℕ) :
    List (ℚ × ℚ) :=
  match duration with
  | none => []
  | some d =>
      if d = 0 then []
      else
        (List.range num_parts).map
          (fun i : ℕ =>
            ((i : ℚ) * (d / (num_parts : ℚ)), d / (num_parts : ℚ)))

end KillExtractor

/-- Claim C1: for every timeline, keyword list, and cooldown `C ≥ 0`, any two
consecutive detector events `e1, e2` satisfy `e2.timestamp - e1.timestamp > C`;
on the timeline `[(0,"x"),(1,"ENEMY DOWNED here"),(2,"x"),
(11,"ENEMY DOWNED again"),(12,"x")]` with keywords `["ENEMY DOWNED"]` and
cooldown 10, only the event at `t = 1` is emitted, because `11 - 1 = 10` is
not strictly greater than 10. -/
theorem detector_cooldown_strict :
    (∀ (samples : List (ℚ × String)) (kws : List String) (C : ℚ), 0 ≤ C →
        List.Chain' (fun a b => C < b - a)
          (KillExtractor.detect samples kws C)) ∧
    KillExtractor.detect
      [(0, "x"), (1, "ENEMY DOWNED here"), (2, "x"),
       (11, "ENEMY DOWNED again"), (12, "x")] ["ENEMY DOWNED"] 10 = [1] := by
  constructor
  · intro samples kws C _
    exact KillExtractor.detect_chain samples kws C
  · have hx : containsCI "x" "ENEMY DOWNED" = false := by decide
    have h1 : containsCI "ENEMY DOWNED here" "ENEMY DOWNED" = true := by decide
    have h2 : containsCI "ENEMY DOWNED again" "ENEMY DOWNED" = true := by decide
    have e1 : ¬ ("ENEMY DOWNED here" = "") := by decide
    have e2 : ¬ ("ENEMY DOWNED again" = "") := by decide
    norm_num [KillExtractor.detect, KillExtractor.sampleStep,
      KillExtractor.kwStep, KillExtractor.initLast, hx, h1, h2, e1, e2]

theorem detector_cooldown_strict_witness :
    (0 : ℚ) ≤ 10 ∧
      List.Chain' (fun a b => (10 : ℚ) < b - a)
        (KillExtractor.detect [(0, "x"), (1, "ENEMY DOWNED here")]
          ["ENEMY DOWNED"] 10) :=
  ⟨by norm_num, detector_cooldown_strict.1 _ _ 10 (by norm_num)⟩

/-- Claim C7: for every sample point and every non-negative cooldown, the
detector emits at most one event carrying that sample's timestamp, even when
several keywords match the sample's text. -/
theorem detector_one_event_per_sample :
    ∀ (samples : List (ℚ × String)) (kws : List String) (C : ℚ), 0 ≤ C →
      ∀ t : ℚ, (KillExtractor.detect samples kws C).count t ≤ 1 := by
  intro samples kws C hC t
  have hchain := KillExtractor.detect_chain samples kws C
  have hlt : List.Chain' (· < ·) (KillExtractor.detect samples kws C) :=
    hchain.imp (fun a b hab => by linarith)
  have hp : (KillExtractor.detect samples kws C).Pairwise (· < ·) :=
    List.chain'_iff_pairwise.mp hlt
  have hnd : (KillExtractor.detect samples kws C).Nodup :=
    hp.imp (fun hab => ne_of_lt hab)
  exact List.nodup_iff_count_le_one.mp hnd t

theorem detector_one_event_per_sample_witness :
    (0 : ℚ) ≤ 10 ∧
      (KillExtractor.detect [(1, "ENEMY DOWNED here")] ["ENEMY DOWNED"]
        10).count 1 ≤ 1 :=
  ⟨by norm_num, detector_one_event_per_sample _ _ 10 (by norm_num) 1⟩

/-- Claim C8: a timeline in which no sample's text contains any configured
keyword (case-insensitively) produces an empty event list; moreover samples
with empty text never contribute: the detector output is unchanged when they
are dropped from the timeline. -/
theorem detector_no_match_empty :
    ∀ (samples : List (ℚ × String)) (kws : List String) (C : ℚ),
      ((∀ s ∈ samples, ∀ kw ∈ kws, containsCI s.2 kw = false) →
          KillExtractor.detect samples kws C = []) ∧
      KillExtractor.detect samples kws C =
        KillExtractor.detect (samples.filter fun s => !(s.2 == "")) kws C := by
  intro samples kws C
  constructor
  · intro h
    unfold KillExtractor.detect
    have : ∀ st : List ℚ × ℚ,
        samples.foldl (KillExtractor.sampleStep kws C) st = st := by
      induction samples with
      | nil => intro st; rfl
      | cons s samples ih =>
        intro st
        rw [List.foldl_cons,
          KillExtractor.sampleStep_nomatch C kws s st (h s (by simp))]
        exact ih (fun s' hs' => h s' (List.mem_cons_of_mem s hs')) st
    rw [this]
  · unfold KillExtractor.detect
    rw [KillExtractor.fold_filter_empty]

theorem detector_no_match_empty_witness :
    KillExtractor.detect [(0, "nothing here"), (3, "")] ["ENEMY DOWNED"]
      10 = [] :=
  (detector_no_match_empty [(0, "nothing here"), (3, "")] ["ENEMY DOWNED"]
    10).1 (by decide)

/-- Claim C5 counterexample: with an undetermined duration the segmenter
returns the ordinary empty list — a normal value, not a run-fatal error —
and in particular not a list of `N = 4` part handles. -/
theorem segmenter_unknown_duration_cex :
    KillExtractor.split_video_into_parts none 4 = [] ∧
      (KillExtractor.split_video_into_parts none 4).length ≠ 4 := by
  constructor <;> simp [KillExtractor.split_video_into_parts]

/-- Claim C5 (amended): for a known nonzero duration `d` the segmenter
returns exactly `N` parts, part `i` starting at `i * d / N` and covering
`d / N` seconds; when the duration cannot be determined it returns the
empty list (zero parts, the run continues), rather than raising a fatal
segmentation error. -/
theorem segmenter_parts_spec :
    ∀ (d : ℚ) (N : ℕ), d ≠ 0 →
      (KillExtractor.split_video_into_parts (some d) N).length = N ∧
      (∀ i : ℕ, i < N →
        (KillExtractor.split_video_into_parts (some d) N).getD i (0, 0) =
          ((i : ℚ) * (d / (N : ℚ)), d / (N : ℚ))) ∧
      KillExtractor.split_video_into_parts none N = [] := by
  intro d N hd
  refine ⟨?_, ?_, rfl⟩
  · simp only [KillExtractor.split_video_into_parts, if_neg hd,
      List.length_map, List.length_range]
  · intro i hi
    simp only [KillExtractor.split_video_into_parts, if_neg hd]
    rw [List.getD_eq_getElem?_getD, List.getElem?_map, List.getElem?_range hi]
    rfl

theorem segmenter_parts_spec_witness :
    (8 : ℚ) ≠ 0 ∧
      (KillExtractor.split_video_into_parts (some 8) 4).length = 4 ∧
      (KillExtractor.split_video_into_parts (some 8) 4).getD 1 (0, 0) =
        (2, 2) := by
  have h := segmenter_parts_spec 8 4 (by norm_num)
  refine ⟨by norm_num, h.1, ?_⟩
  rw [h.2.1 1 (by norm_num)]
  norm_num

/-- Claim C6: every export window requested for an event at time `t` is
`(start, duration) = (max 0 (t - pre), pre + post)`: the duration is not
reduced when `t < pre`; for `t = 2`, `pre = post = 5` the request is
`start = 0`, `duration = 10`. -/
theorem export_window_spec :
    (∀ (ts : List ℚ) (pre post : ℚ) (w : ℚ × ℚ),
        w ∈ KillExtractor.exportWindows ts pre post →
          (∃ t ∈ ts, w.1 = max 0 (t - pre)) ∧ w.2 = pre + post) ∧
    KillExtractor.exportWindows [2] 5 5 = [(0, 10)] := by
  constructor
  · intro ts pre post w hw
    obtain ⟨t, ht, rfl⟩ := List.mem_map.mp hw
    exact ⟨⟨t, ht, rfl⟩, rfl⟩
  · norm_num [KillExtractor.exportWindows]

theorem export_window_spec_witness :
    ((0 : ℚ), (10 : ℚ)) ∈ KillExtractor.exportWindows [2] 5 5 ∧
      ((∃ t ∈ ([2] : List ℚ), ((0 : ℚ), (10 : ℚ)).1 = max 0 (t - 5)) ∧
        ((0 : ℚ), (10 : ℚ)).2 = 5 + 5) := by
  have hm : ((0 : ℚ), (10 : ℚ)) ∈ KillExtractor.exportWindows [2] 5 5 := by
    norm_num [KillExtractor.exportWindows]
  exact ⟨hm, export_window_spec.1 [2] 5 5 (0, 10) hm⟩

/-- Claim C9: a segment whose very first frame fails to decode yields the
empty event list (an ordinary return value, with only a warning printed),
and the per-part loop proceeds with the remaining segments unchanged. -/
theorem first_frame_fail_nonfatal :
    ∀ (interval C d : ℚ) (kws : List String) (frame : ℚ → Option String)
      (ps : List (Bool × ℚ × (ℚ → Option String))),
      KillExtractor.find_and_extract false d interval frame kws C = [] ∧
      KillExtractor.scanParts interval kws C ((false, d, frame) :: ps) =
        [] :: KillExtractor.scanParts interval kws C ps := by
  intro interval C d kws frame ps
  exact ⟨rfl, rfl⟩

/-- Claim C10: every emitted event timestamp lies on the sampling grid:
it equals `k * interval` for some `k : ℕ`, because the scan starts at 0 and
advances by exactly the sampling interval on every iteration, including
iterations whose frame fails to decode. -/
theorem event_times_on_grid :
    ∀ (firstOk : Bool) (d interval : ℚ) (frame : ℚ → Option String)
      (kws : List String) (C : ℚ), 0 < interval →
      ∀ t ∈ KillExtractor.find_and_extract firstOk d interval frame kws C,
        ∃ k : ℕ, t = (k : ℚ) * interval := by
  intro firstOk d i frame kws C _ t ht
  unfold KillExtractor.find_and_extract at ht
  split at ht
  · obtain ⟨s, hs, rfl⟩ := KillExtractor.mem_detect _ _ _ t ht
    unfold KillExtractor.scanTimeline at hs
    obtain ⟨k, _, hfk⟩ := List.mem_filterMap.mp hs
    obtain ⟨text, _, hmk⟩ := Option.map_eq_some'.mp hfk
    exact ⟨k, by rw [← hmk]⟩
  · simp at ht

theorem event_times_on_grid_witness :
    (0 : ℚ) < 1 ∧ (∃ k : ℕ, (0 : ℚ) = (k : ℚ) * 1) := by
  have h1 : containsCI "ENEMY DOWNED here" "ENEMY DOWNED" = true := by decide
  have e1 : ¬ ("ENEMY DOWNED here" = "") := by decide
  have hg : KillExtractor.gridCount 1 1 = 1 := by
    unfold KillExtractor.gridCount
    norm_num
  have hmem : (0 : ℚ) ∈ KillExtractor.find_and_extract true 1 1
      (fun _ => some "ENEMY DOWNED here") ["ENEMY DOWNED"] 10 := by
    norm_num [KillExtractor.find_and_extract, KillExtractor.scanTimeline, hg,
      KillExtractor.detect, KillExtractor.sampleStep, KillExtractor.kwStep,
      KillExtractor.initLast, h1, e1, List.range_succ, List.filterMap_cons,
      List.filterMap_nil]
  exact ⟨by norm_num,
    event_times_on_grid true 1 1 _ _ 10 (by norm_num) 0 hmem⟩

/-- The ffmpeg request a merge step issues: skip (nothing to do), copy the
single input byte-for-byte (`shutil.copy2`), or invoke the concat demuxer on
the listed inputs. -/
inductive MergeAction (α : Type) where
  | skip : MergeAction α
  | copy : α → MergeAction α
  | concat : List α → MergeAction α
deriving DecidableEq

namespace ClipMerger

/-- The batching loop of `main` (merge_clips.py lines 41-49): starting at
`i = 0`, take 3 clips when exactly 3 remain (`i + 3 == len(clip_paths)`),
otherwise take the next (up to) 2. -/
def batches {α : Type} : List α → List (List α)
  | [] => []
  | [a] => [[a]]
  | [a, b] => [[a, b]]
  | [a, b, c] => [[a, b, c]]
  | a :: b :: c :: d :: rest => [a, b] :: batches (c :: d :: rest)

/-- `merge_clips` (merge_clips.py lines 20-35): writes a concat list with ALL
given clips — single-element batches included — and invokes the concat
demuxer on it. -/
def merge_clips {α : Type} (clip_paths : List α) : MergeAction α :=
  .concat clip_paths

/-- `main` (merge_clips.py lines 37-55): partition into batches and issue one
merge per batch. -/
def mainRun {α : Type} (clip_paths : List α) : List (MergeAction α) :=
  (batches clip_paths).map merge_clips

end ClipMerger

namespace YtPipeline

/-- `merge_clips_together` (yt_4k_to_shorts_pipeline.py lines 80-106): an
empty list is skipped, a single clip is copied byte-for-byte
(`shutil.copy2`), two or more clips go to the concat demuxer. -/
def merge_clips_together {α : Type} : List α → MergeAction α
  | [] => .skip
  | [c] => .copy c
  | cs => .concat cs

/-- The grouping of `merge_all_globally` (yt_4k_to_shorts_pipeline.py lines
164-178): slices of three, `all_clips[idx:idx+3]`, `idx += 3`. -/
def globalGroups {α : Type} : List α → List (List α)
  | [] => []
  | [a] => [[a]]
  | [a, b] => [[a, b]]
  | a :: b :: c :: rest => [a, b, c] :: globalGroups rest

/-- `merge_all_globally`: one `merge_clips_together` call per group. -/
def merge_all_globally {α : Type} (all_clips : List α) :
    List (MergeAction α) :=
  (globalGroups all_clips).map merge_clips_together

/-- `pick_music` (yt_4k_to_shorts_pipeline.py lines 200-205): `None` on the
empty pool, otherwise `MUSIC_POOL.pop()` — remove and return the pool's last
element. -/
def pick_music {α : Type} (pool : List α) : Option α × List α :=
  match pool.getLast? with
  | none => (none, [])
  | some c => (some c, pool.dropLast)

/-- `n` successive draws from the pool, threading the shrinking pool. -/
def runDraws {α : Type} : List α → ℕ → List (Option α)
  | _, 0 => []
  | pool, n + 1 =>
      (pick_music pool).1 :: runDraws (pick_music pool).2 n

end YtPipeline

namespace ShortsReels

/-- `pick_random_music` (shorts_reels_pipeline.py lines 203-209): `None`
when there are no music files, otherwise `random.choice(music_files)` —
sampling WITH replacement, the pool is never mutated; the random index is
made an explicit parameter. -/
def pick_random_music (pool : List String) (choice : ℕ) : Option String :=
  match pool with
  | [] => none
  | _ :: _ => some (pool.getD (choice % pool.length) "")

/-- Successive draws, one random index per draw. -/
def drawSeq (pool : List String) (choices : List ℕ) : List (Option String) :=
  choices.map (pick_random_music pool)

end ShortsReels

/-- Claim C2 counterexample: the global merger of
yt_4k_to_shorts_pipeline.py walks THREE clips at a time, so for 8 input
clips it forms batches of sizes `[3, 3, 2]`, not the claimed
`[2, 2, 2, 2]`. -/
theorem global_merge_pair_sizes_cex :
    (YtPipeline.globalGroups [0, 1, 2, 3, 4, 5, 6, 7]).map List.length =
        [3, 3, 2] ∧
      (YtPipeline.globalGroups [0, 1, 2, 3, 4, 5, 6, 7]).map List.length ≠
        List.replicate 4 2 := by
  constructor <;> decide

/-- Claim C2 (amended): the clip_merger_script merger walks the list two at
a time: `floor(N/2)` batches of size 2 when `N` is even, and
`floor(N/2) - 1` batches of size 2 followed by one batch of size 3 when `N`
is odd and `N ≥ 3` (the yt_4k_to_shorts_pipeline global merger instead
slices three at a time). -/
theorem clip_merger_batch_sizes {α : Type} :
    ∀ l : List α,
      (l.length % 2 = 0 →
        (ClipMerger.batches l).map List.length =
          List.replicate (l.length / 2) 2) ∧
      (l.length % 2 = 1 → 3 ≤ l.length →
        (ClipMerger.batches l).map List.length =
          List.replicate (l.length / 2 - 1) 2 ++ [3]) := by
  have H : ∀ (n : ℕ) (l : List α), l.length ≤ n →
      (l.length % 2 = 0 →
        (ClipMerger.batches l).map List.length =
          List.replicate (l.length / 2) 2) ∧
      (l.length % 2 = 1 → 3 ≤ l.length →
        (ClipMerger.batches l).map List.length =
          List.replicate (l.length / 2 - 1) 2 ++ [3]) := by
    intro n
    induction n with
    | zero =>
      intro l hl
      rw [List.length_eq_zero.mp (Nat.le_zero.mp hl)]
      exact ⟨fun _ => by simp [ClipMerger.batches], fun _ h3 => by simp at h3⟩
    | succ n ih =>
      intro l hl
      rcases l with _ | ⟨a, _ | ⟨b, _ | ⟨c, _ | ⟨d, rest⟩⟩⟩⟩
      · exact ⟨fun _ => by simp [ClipMerger.batches], fun _ h3 => by simp at h3⟩
      · exact ⟨fun h0 => by simp at h0, fun _ h3 => by simp at h3⟩
      · exact ⟨fun _ => by simp [ClipMerger.batches], fun h1 => by simp at h1⟩
      · refine ⟨fun h0 => ?_, fun _ _ => by simp [ClipMerger.batches]⟩
        simp only [List.length_cons, List.length_nil] at h0
        omega
      · have hlen : (a :: b :: c :: d :: rest).length = rest.length + 4 := by
          simp
        have hlen2 : (c :: d :: rest).length = rest.length + 2 := by simp
        have hih := ih (c :: d :: rest) (by simp at hl ⊢; omega)
        constructor
        · intro h0
          rw [hlen] at h0 ⊢
          have h0' : (c :: d :: rest).length % 2 = 0 := by rw [hlen2]; omega
          have := hih.1 h0'
          rw [hlen2] at this
          have hdiv : (rest.length + 4) / 2 = (rest.length + 2) / 2 + 1 := by
            omega
          rw [hdiv, List.replicate_succ]
          calc (ClipMerger.batches (a :: b :: c :: d :: rest)).map List.length
              = 2 :: (ClipMerger.batches (c :: d :: rest)).map List.length :=
                by simp [ClipMerger.batches]
            _ = 2 :: List.replicate ((rest.length + 2) / 2) 2 := by rw [this]
        · intro h1 _
          rw [hlen] at h1 ⊢
          have h1' : (c :: d :: rest).length % 2 = 1 := by rw [hlen2]; omega
          have h3' : 3 ≤ (c :: d :: rest).length := by rw [hlen2]; omega
          have := hih.2 h1' h3'
          rw [hlen2] at this
          have hdiv : (rest.length + 4) / 2 - 1 =
              ((rest.length + 2) / 2 - 1) + 1 := by omega
          rw [hdiv, List.replicate_succ, List.cons_append]
          calc (ClipMerger.batches (a :: b :: c :: d :: rest)).map List.length
              = 2 :: (ClipMerger.batches (c :: d :: rest)).map List.length :=
                by simp [ClipMerger.batches]
            _ = 2 :: (List.replicate ((rest.length + 2) / 2 - 1) 2 ++ [3]) :=
                by rw [this]
  exact fun l => H l.length l (le_refl _)

theorem clip_merger_batch_sizes_witness :
    ((List.range 8).length % 2 = 0 ∧
      (ClipMerger.batches (List.range 8)).map List.length =
        List.replicate 4 2) ∧
    ((List.range 7).length % 2 = 1 ∧ 3 ≤ (List.range 7).length ∧
      (ClipMerger.batches (List.range 7)).map List.length =
        List.replicate 2 2 ++ [3]) := by
  have h8 := (clip_merger_batch_sizes (List.range 8)).1 (by decide)
  have h7 := (clip_merger_batch_sizes (List.range 7)).2 (by decide) (by decide)
  exact ⟨⟨by decide, by simpa using h8⟩, by decide, by decide,
    by simpa using h7⟩

/-- Claim C3 counterexample: in clip_merger_script, a single-clip input
yields one batch of size 1 which is passed straight to `merge_clips`, so the
concat operation IS invoked with fewer than 2 inputs (and no byte-identical
copy is made). -/
theorem clip_merger_single_concat_cex :
    ClipMerger.mainRun [0] = [MergeAction.concat [0]] ∧
      ([0] : List ℕ).length < 2 := by
  constructor <;> decide

/-- `merge_clips_together` only requests a concat for lists of length at
least 2. -/
lemma mct_concat_arity {α : Type} (g cs : List α)
    (h : YtPipeline.merge_clips_together g = MergeAction.concat cs) :
    2 ≤ cs.length := by
  rcases g with _ | ⟨a, _ | ⟨b, rest⟩⟩
  · simp [YtPipeline.merge_clips_together] at h
  · simp [YtPipeline.merge_clips_together] at h
  · rw [show YtPipeline.merge_clips_together (a :: b :: rest) =
        MergeAction.concat (a :: b :: rest) from rfl] at h
    injection h with h1
    rw [← h1]
    simp only [List.length_cons]
    omega

/-- Claim C3 (amended): in yt_4k_to_shorts_pipeline, a single-clip merger
input yields one size-1 batch whose output is a byte-identical copy
(`shutil.copy2`) of that clip, and every concat request carries at least 2
inputs.  (In clip_merger_script, by contrast, `merge_clips` invokes the
concat operation even for a 1-clip batch.) -/
theorem yt_single_clip_copy_concat_arity {α : Type} :
    (∀ c : α, YtPipeline.merge_all_globally [c] = [MergeAction.copy c]) ∧
    (∀ (l cs : List α),
        MergeAction.concat cs ∈ YtPipeline.merge_all_globally l →
          2 ≤ cs.length) := by
  constructor
  · intro c
    rfl
  · intro l cs hmem
    unfold YtPipeline.merge_all_globally at hmem
    obtain ⟨g, _, hact⟩ := List.mem_map.mp hmem
    exact mct_concat_arity g cs hact

theorem yt_single_clip_copy_concat_arity_witness :
    YtPipeline.merge_all_globally [(5 : ℕ)] = [MergeAction.copy 5] ∧
      MergeAction.concat [0, 1, 2] ∈
        YtPipeline.merge_all_globally [0, 1, 2] ∧
      2 ≤ ([0, 1, 2] : List ℕ).length :=
  ⟨(@yt_single_clip_copy_concat_arity ℕ).1 5, by decide,
    (@yt_single_clip_copy_concat_arity ℕ).2 [0, 1, 2] [0, 1, 2] (by decide)⟩

/-- Claim C4 counterexample: the shorts_reels_pipeline picker draws WITH
replacement: from the one-track pool `["a"]` two successive draws (with any
random indices) both return track "a", and the draw after the pool size
(here the 2nd) does not return "none". -/
theorem reels_music_repeat_cex :
    ShortsReels.drawSeq ["a"] [0, 1] = [some "a", some "a"] ∧
      ShortsReels.pick_random_music ["a"] 1 ≠ none := by
  constructor <;> decide

lemma filterMap_id_replicate_none {α : Type} :
    ∀ k : ℕ, (List.replicate k (none : Option α)).filterMap id = [] := by
  intro k
  induction k with
  | zero => rfl
  | succ k ih => simp [List.replicate_succ, List.filterMap_cons, ih]

/-- Full characterization of `n` successive pool draws: the pool comes back
in reverse (pop-from-the-end) order, then `none` forever. -/
lemma runDraws_eq {α : Type} :
    ∀ (n : ℕ) (pool : List α),
      YtPipeline.runDraws pool n =
        (pool.reverse.take n).map some ++
          List.replicate (n - pool.length) (none : Option α) := by
  intro n
  induction n with
  | zero => intro pool; simp [YtPipeline.runDraws]
  | succ n ih =>
    intro pool
    by_cases hp : pool = []
    · subst hp
      rw [show YtPipeline.runDraws ([] : List α) (n + 1) =
          none :: YtPipeline.runDraws ([] : List α) n from rfl, ih]
      simp [List.replicate_succ]
    · have hg : pool.getLast? = some (pool.getLast hp) :=
        List.getLast?_eq_getLast_of_ne_nil hp
      have hpick : YtPipeline.pick_music pool =
          (some (pool.getLast hp), pool.dropLast) := by
        unfold YtPipeline.pick_music
        rw [hg]
      have hstep : YtPipeline.runDraws pool (n + 1) =
          some (pool.getLast hp) :: YtPipeline.runDraws pool.dropLast n := by
        rw [show YtPipeline.runDraws pool (n + 1) =
            (YtPipeline.pick_music pool).1 ::
              YtPipeline.runDraws (YtPipeline.pick_music pool).2 n from rfl,
          hpick]
      have hrev : pool.reverse = pool.getLast hp :: pool.dropLast.reverse := by
        conv_lhs => rw [← List.dropLast_append_getLast hp]
        rw [List.reverse_append]
        rfl
      have hlen : n + 1 - pool.length = n - pool.dropLast.length := by
        rw [List.length_dropLast]
        have : 1 ≤ pool.length := List.length_pos.mpr hp
        omega
      rw [hstep, ih, hrev, List.take_succ_cons, List.map_cons, hlen]
      rfl

/-- Claim C4 (amended): the yt_4k_to_shorts_pipeline pool (with pairwise
distinct handles) draws without replacement: each of the first K draws
returns a track, no track is returned by two different draws in the run,
and every draw after the K-th returns none.  (The shorts_reels_pipeline
picker instead draws with replacement.) -/
theorem yt_music_pool_no_repeat {α : Type} :
    ∀ (pool : List α) (n : ℕ), pool.Nodup →
      ((YtPipeline.runDraws pool n).take pool.length).all Option.isSome =
          true ∧
      ((YtPipeline.runDraws pool n).filterMap id).Nodup ∧
      (∀ r ∈ (YtPipeline.runDraws pool n).drop pool.length, r = none) := by
  intro pool n hnd
  rw [runDraws_eq]
  have hlenA : ((pool.reverse.take n).map some).length = min n pool.length := by
    rw [List.length_map, List.length_take, List.length_reverse]
  refine ⟨?_, ?_, ?_⟩
  · rw [List.take_append_eq_append_take,
      List.take_of_length_le (by rw [hlenA]; omega), List.take_replicate]
    have h0 : min (pool.length - ((pool.reverse.take n).map some).length)
        (n - pool.length) = 0 := by
      rw [hlenA]
      omega
    rw [h0]
    simp only [List.replicate_zero, List.append_nil, List.all_eq_true]
    intro x hx
    obtain ⟨a, _, rfl⟩ := List.mem_map.mp hx
    rfl
  · rw [List.filterMap_append, filterMap_id_replicate_none, List.append_nil,
      List.filterMap_map]
    have hid : (pool.reverse.take n).filterMap (id ∘ some) =
        pool.reverse.take n := by
      simp
    rw [hid]
    exact ((List.take_sublist n pool.reverse).nodup
      (List.nodup_reverse.mpr hnd))
  · intro r hr
    rw [List.drop_append_eq_append_drop,
      List.drop_eq_nil_of_le (by rw [hlenA]; omega), List.nil_append] at hr
    exact List.eq_of_mem_replicate (List.drop_subset _ _ hr)

theorem yt_music_pool_no_repeat_witness :
    (["a", "b"] : List String).Nodup ∧
      ((YtPipeline.runDraws ["a", "b"] 3).take 2).all Option.isSome = true ∧
      ((YtPipeline.runDraws ["a", "b"] 3).filterMap id).Nodup ∧
      (∀ r ∈ (YtPipeline.runDraws ["a", "b"] 3).drop 2, r = none) := by
  have h := yt_music_pool_no_repeat ["a", "b"] 3 (by decide)
  exact ⟨by decide, h.1, h.2.1, h.2.2⟩
